import Mathlib

/-
  Verification development for the gmail-mcp-http server.

  The definitions below are a shallow embedding of the TypeScript source:
  src/gmail.ts (GmailService: listEmails, getEmail, sendEmail, replyToEmail,
  forwardEmail, findMarketingEmails, encodeHeader) and src/index.ts (the REST
  route handlers, the generic /api/call tool dispatcher and the
  authenticateApiKey middleware).  The Gmail backend itself is out of scope
  and is modelled as explicit function parameters (an id-listing call and a
  fetch-by-id call).  JavaScript truthiness of optional strings and arrays is
  modelled explicitly.  Message body payloads are carried in decoded form:
  the source decodes the backend's wire base64 with
  Buffer.from(data, 'base64').toString('utf8'), a bijection on
  backend-produced payloads, so the part-selection logic is unaffected.
  Header encoding (GmailService.encodeHeader), where the base64 encoding is
  itself the property under study, is modelled down to the octet level with
  an executable base64 encoder and decoder.
-/

namespace GmailMcp

/-- JS truthiness of an optional string: undefined and the empty string are
falsy, every other string is truthy. -/
def strTruthy : Option String → Bool
  | none => false
  | some s => !(s == "")

/-- An absent optional string is falsy. -/
theorem strTruthy_none : strTruthy none = false := rfl

/-- The string value of an optional string, defaulting to the empty string
(the JS idiom of reading a possibly-undefined field into a string slot). -/
def jsStr : Option String → String
  | none => ""
  | some s => s

/-- JS truthiness of an optional array length (the params.cc?.length guard in
sendEmail): the array must be present and non-empty. -/
def listTruthy : Option (List String) → Bool
  | none => false
  | some l => !(l.isEmpty)

/-- The list value of an optional list, defaulting to the empty list. -/
def jsList : Option (List String) → List String
  | none => []
  | some l => l

/-- A MIME body part of a backend message (gmail_v1.Schema-MessagePart):
a mime type, an optional body payload (in decoded form, see the file header)
and optional nested child parts (the part.parts field of the schema). -/
inductive MimePart : Type where
  | mk : String → Option String → Option (List MimePart) → MimePart

/-- The mimeType field of a part. -/
def MimePart.mimeType : MimePart → String
  | .mk t _ _ => t

/-- The body.data field of a part, decoded (none when the part has no body
payload). -/
def MimePart.data : MimePart → Option String
  | .mk _ d _ => d

/-- The nested parts field of a part (none when absent). -/
def MimePart.children : MimePart → Option (List MimePart)
  | .mk _ _ c => c

/-- The payload of a backend message: the flat header list, the direct
top-level body payload (payload.body.data, decoded) and the optional list of
top-level MIME parts. -/
structure MessagePayload where
  headers : List (String × String)
  bodyData : Option String
  parts : Option (List MimePart)

/-- A backend message as returned by users.messages.get with format full. -/
structure BackendMessage where
  id : String
  threadId : String
  snippet : String
  labelIds : List String
  payload : MessagePayload

/-- The EmailMessage shape produced by the Header Extractor (gmail.ts).
The source fields named from and to are reserved words in Lean and are
embedded as fromAddr and toAddr. -/
structure EmailMessage where
  id : String
  threadId : String
  subject : String
  fromAddr : String
  toAddr : String
  date : String
  snippet : String
  body : String
  labels : List String
deriving DecidableEq, Repr

/-- Case-insensitive header lookup, first match wins (the getHeader closure
of gmail.ts: headers.find on lowercased names, empty string when absent). -/
def getHeader (headers : List (String × String)) (name : String) : String :=
  match headers.find? (fun h => h.1.toLower == name.toLower) with
  | some h => h.2
  | none => ""

/-- Is this part a text/plain part? -/
def isPlainPart (p : MimePart) : Bool := p.mimeType == "text/plain"

/-- Is this part a text/html part? -/
def isHtmlPart (p : MimePart) : Bool := p.mimeType == "text/html"

/-- Body resolution of GmailService.getEmail (gmail.ts): prefer the direct
top-level payload; otherwise look in payload.parts with Array.find for the
first text/plain part and the first text/html part, use the plain part's data
when truthy, else the html part's data when truthy, else the empty string.
The find runs over the top-level parts array only. -/
def getEmailBody (payload : MessagePayload) : String :=
  if strTruthy payload.bodyData then jsStr payload.bodyData
  else
    match payload.parts with
    | none => ""
    | some ps =>
      let textPart := ps.find? isPlainPart
      let htmlPart := ps.find? isHtmlPart
      if strTruthy (textPart.bind MimePart.data) then jsStr (textPart.bind MimePart.data)
      else if strTruthy (htmlPart.bind MimePart.data) then jsStr (htmlPart.bind MimePart.data)
      else ""

/-- GmailService.getEmail: fetch the message by id (fetch none models the
thrown backend error that the catch branch turns into null), then extract the
EmailMessage shape via the header lookup and body resolution. -/
def getEmail (fetch : String → Option BackendMessage) (messageId : String) :
    Option EmailMessage :=
  match fetch messageId with
  | none => none
  | some m =>
    some
      { id := m.id
        threadId := m.threadId
        subject := getHeader m.payload.headers "Subject"
        fromAddr := getHeader m.payload.headers "From"
        toAddr := getHeader m.payload.headers "To"
        date := getHeader m.payload.headers "Date"
        snippet := m.snippet
        body := getEmailBody m.payload
        labels := m.labelIds }

/-- A JSON value, used to state the exact response bodies the handlers build
with res.json. -/
inductive Json : Type where
  | null : Json
  | bool : Bool → Json
  | num : Nat → Json
  | str : String → Json
  | arr : List Json → Json
  | obj : List (String × Json) → Json

/-- The JSON serialisation of an EmailMessage. -/
def emailJson (e : EmailMessage) : Json :=
  .obj
    [ ("id", .str e.id), ("threadId", .str e.threadId),
      ("subject", .str e.subject), ("from", .str e.fromAddr),
      ("to", .str e.toAddr), ("date", .str e.date),
      ("snippet", .str e.snippet), ("body", .str e.body),
      ("labels", .arr (e.labels.map Json.str)) ]

/-- JSON of an optional value: JS null when absent. -/
def optionJson (f : α → Json) : Option α → Json
  | none => .null
  | some a => f a

/-- The top-level keys of a JSON object, in order (the response shape). -/
def topLevelFields : Json → List String
  | .obj l => l.map Prod.fst
  | _ => []

/-- Look up a top-level field of a JSON object. -/
def jsonField (j : Json) (k : String) : Option Json :=
  match j with
  | .obj l => (l.find? (fun p => p.1 == k)).map Prod.snd
  | _ => none

/-- The REST handler GET /api/emails/:id (index.ts): a null result from
getEmail becomes HTTP 404 with success false, a non-null result becomes
HTTP 200 with the email. -/
def restGetEmail (fetch : String → Option BackendMessage) (messageId : String) :
    Nat × Json :=
  match getEmail fetch messageId with
  | none => (404, .obj [("success", .bool false), ("error", .str "Email not found")])
  | some e => (200, .obj [("success", .bool true), ("email", emailJson e)])

/-- The get_email case of the generic POST /api/call dispatcher (index.ts):
a falsy args.messageId is rejected with 400; otherwise the getEmail result,
null included, is wrapped in a 200 success envelope under the data key. -/
def toolGetEmail (fetch : String → Option BackendMessage)
    (argsMessageId : Option String) : Nat × Json :=
  if !(strTruthy argsMessageId) then
    (400, .obj [("success", .bool false), ("error", .str "messageId is required")])
  else
    (200, .obj [("success", .bool true),
                ("data", optionJson emailJson (getEmail fetch (jsStr argsMessageId)))])

/-- C1: for every message id whose backend get fails, the REST endpoint
GET /api/emails/:id answers 404 with success false, while the generic tool
endpoint with tool get_email and the same messageId answers 200 with a
success envelope whose data payload is null. -/
theorem get_email_rest_404_tool_null
    (fetch : String → Option BackendMessage) (messageId : String)
    (hid : messageId ≠ "") (hfail : fetch messageId = none) :
    restGetEmail fetch messageId =
      (404, .obj [("success", .bool false), ("error", .str "Email not found")])
    ∧ toolGetEmail fetch (some messageId) =
      (200, .obj [("success", .bool true), ("data", Json.null)]) := by
  have hget : getEmail fetch messageId = none := by
    simp [getEmail, hfail]
  constructor
  · simp [restGetEmail, hget]
  · simp [toolGetEmail, strTruthy, hid, jsStr, hget, optionJson]

/-- Witness for C1 at a concrete backend where every fetch fails. -/
theorem get_email_rest_404_tool_null_witness :
    restGetEmail (fun _ => none) "m1" =
      (404, .obj [("success", .bool false), ("error", .str "Email not found")])
    ∧ toolGetEmail (fun _ => none) (some "m1") =
      (200, .obj [("success", .bool true), ("data", Json.null)]) :=
  get_email_rest_404_tool_null (fun _ => none) "m1" (by decide) rfl

/-- The authenticateApiKey middleware (index.ts): a falsy configured
API_KEY (unset or empty, both falsy in JS) disables the check; otherwise the
request passes only when the x-api-key header is present, truthy and equal to
the configured key.  The configured key is embedded as a String with the
empty string standing for an unset environment variable. -/
def authPasses (apiKeyConfig : String) (headerKey : Option String) : Bool :=
  if apiKeyConfig == "" then true
  else
    match headerKey with
    | none => false
    | some k => if k == "" then false else k == apiKeyConfig

/-- The outcome of a request to a protected route: the HTTP status and
whether the route handler (hence any backend call) ran at all. -/
structure RouteOutcome where
  status : Nat
  backendCalled : Bool
deriving DecidableEq, Repr

/-- A non-health API route wrapped in authenticateApiKey: when the gate
denies, the response is 401 and the handler never runs; when it passes, the
handler runs and produces its own status. -/
def runProtectedRoute (apiKeyConfig : String) (headerKey : Option String)
    (handlerStatus : Nat) : RouteOutcome :=
  if authPasses apiKeyConfig headerKey then
    { status := handlerStatus, backendCalled := true }
  else
    { status := 401, backendCalled := false }

/-- C9: with a configured API key, a missing or mismatched x-api-key header
yields 401 before any backend call; with no key configured the check is
disabled and every request passes through to the handler. -/
theorem auth_gate_spec (apiKeyConfig : String) (headerKey : Option String)
    (handlerStatus : Nat) :
    (apiKeyConfig ≠ "" → (∀ k, headerKey = some k → k ≠ apiKeyConfig) →
      runProtectedRoute apiKeyConfig headerKey handlerStatus =
        { status := 401, backendCalled := false })
    ∧ (apiKeyConfig = "" →
      runProtectedRoute apiKeyConfig headerKey handlerStatus =
        { status := handlerStatus, backendCalled := true }) := by
  constructor
  · intro hcfg hmiss
    have hpass : authPasses apiKeyConfig headerKey = false := by
      cases headerKey with
      | none => simp [authPasses, hcfg]
      | some k =>
        have hk := hmiss k rfl
        by_cases hke : k = ""
        · simp [authPasses, hcfg, hke]
        · simp [authPasses, hcfg, hke, hk]
    simp [runProtectedRoute, hpass]
  · intro hcfg
    simp [runProtectedRoute, authPasses, hcfg]

/-- Witness for C9: a configured key with a missing header is rejected with
401 and no backend call; an unset key lets the request through. -/
theorem auth_gate_spec_witness :
    runProtectedRoute "secret" none 200 = { status := 401, backendCalled := false }
    ∧ runProtectedRoute "" none 200 = { status := 200, backendCalled := true } :=
  ⟨(auth_gate_spec "secret" none 200).1 (by decide) (fun k h => by cases h),
   (auth_gate_spec "" none 200).2 rfl⟩

/-- The slice of the Gmail backend the list operations use: users.messages.list
returning a page of message ids (or throwing, modelled as Except.error with the
error message), and users.messages.get as consumed by getEmail (none models the
thrown error its catch branch swallows). -/
structure Backend where
  listIds : Option String → Nat → Except String (List String)
  fetchMsg : String → Option BackendMessage

/-- GmailService.listEmails: list the matching ids, then fetch each message
individually through getEmail, skipping falsy ids and null results; an error
thrown by the id-listing call propagates. -/
def listEmails (b : Backend) (query : Option String) (maxResults : Nat) :
    Except String (List EmailMessage) :=
  match b.listIds query maxResults with
  | .error e => .error e
  | .ok ids =>
    .ok (ids.filterMap (fun i => if i == "" then none else getEmail b.fetchMsg i))

/-- Concrete backend for C4: the id listing succeeds with two ids and the
fetch of the first one fails. -/
def c4Backend : Backend where
  listIds := fun _ _ => .ok ["m1", "m2"]
  fetchMsg := fun i =>
    if i == "m2" then
      some { id := "m2", threadId := "t2", snippet := "s2", labelIds := [],
             payload := { headers := [], bodyData := some "hello", parts := none } }
    else none

/-- The EmailMessage that c4Backend's surviving message extracts to. -/
def c4Email : EmailMessage :=
  { id := "m2", threadId := "t2", subject := "", fromAddr := "", toAddr := "",
    date := "", snippet := "s2", body := "hello", labels := [] }

/-- Counterexample to C4: with an id list of two messages whose first fetch
fails, listEmails does not fail; it succeeds with the failing item skipped. -/
theorem list_emails_item_failure_not_propagated :
    c4Backend.fetchMsg "m1" = none
    ∧ listEmails c4Backend none 10 = .ok [c4Email]
    ∧ (listEmails c4Backend none 10).isOk = true := by
  refine ⟨rfl, by rfl, by rfl⟩

/-- C4 amended: whenever the initial id-listing call succeeds, listEmails
succeeds no matter how many individual fetches fail; each failing or falsy id
is skipped and the remaining messages are returned in listing order. -/
theorem list_emails_skips_failed_items (b : Backend) (query : Option String)
    (maxResults : Nat) (ids : List String)
    (hlist : b.listIds query maxResults = .ok ids) :
    listEmails b query maxResults =
      .ok (ids.filterMap (fun i => if i == "" then none else getEmail b.fetchMsg i)) := by
  simp [listEmails, hlist]

/-- Witness for the amended C4 at the concrete two-id backend. -/
theorem list_emails_skips_failed_items_witness :
    listEmails c4Backend none 10 =
      .ok (["m1", "m2"].filterMap
        (fun i => if i == "" then none else getEmail c4Backend.fetchMsg i)) :=
  list_emails_skips_failed_items c4Backend none 10 ["m1", "m2"] rfl

/-- The JS falsy-default idiom n || d applied to the parsed maxResults value
on both surfaces (parseInt(req.query.maxResults) || 10 on the REST path,
args?.maxResults || 10 on the tool path): zero falls back to the default. -/
def jsOrDefault (n : Nat) (d : Nat) : Nat :=
  if n == 0 then d else n

/-- The REST handler GET /api/emails (index.ts): run listEmails with the
defaulted maxResults; 200 with success, count and emails on success, 500 with
the error message on a thrown backend error. -/
def restListEmails (b : Backend) (query : Option String) (maxResults : Nat) :
    Nat × Json :=
  match listEmails b query (jsOrDefault maxResults 10) with
  | .error e => (500, .obj [("success", .bool false), ("error", .str e)])
  | .ok emails =>
    (200, .obj [("success", .bool true), ("count", .num emails.length),
                ("emails", .arr (emails.map emailJson))])

/-- The list_emails case of the generic POST /api/call dispatcher (index.ts):
the same listEmails call with the same defaulted maxResults, but wrapped as a
success envelope with the list under the data key. -/
def toolListEmails (b : Backend) (query : Option String) (maxResults : Nat) :
    Nat × Json :=
  match listEmails b query (jsOrDefault maxResults 10) with
  | .error e => (500, .obj [("success", .bool false), ("error", .str e)])
  | .ok emails =>
    (200, .obj [("success", .bool true), ("data", .arr (emails.map emailJson))])

/-- Concrete backend for C2: one listed message, honouring the maxResults
bound, whose fetch succeeds. -/
def c2Backend : Backend where
  listIds := fun _ m => .ok (["m1"].take m)
  fetchMsg := fun i =>
    if i == "m1" then
      some { id := "m1", threadId := "t1", snippet := "s1", labelIds := [],
             payload := { headers := [], bodyData := none, parts := none } }
    else none

/-- The EmailMessage that c2Backend's message extracts to. -/
def c2Email : EmailMessage :=
  { id := "m1", threadId := "t1", subject := "", fromAddr := "", toAddr := "",
    date := "", snippet := "s1", body := "", labels := [] }

/-- Counterexample to C2: at maxResults 5 the two surfaces answer with
different top-level response shapes (success, count, emails versus success,
data), and at maxResults 0 both coerce the bound to 10, so the returned list
is not bounded by 0. -/
theorem list_emails_surfaces_not_same_shape :
    topLevelFields (restListEmails c2Backend none 5).2 = ["success", "count", "emails"]
    ∧ topLevelFields (toolListEmails c2Backend none 5).2 = ["success", "data"]
    ∧ topLevelFields (restListEmails c2Backend none 5).2 ≠
        topLevelFields (toolListEmails c2Backend none 5).2
    ∧ listEmails c2Backend none (jsOrDefault 0 10) = .ok [c2Email]
    ∧ ¬ ([c2Email].length ≤ 0) := by
  refine ⟨by rfl, by rfl, by decide, by rfl, by decide⟩

/-- C2 amended: for every maxResults value both surfaces invoke the same
underlying listEmails operation with the same query and the same defaulted
bound, answer with the same HTTP status, and carry the identical email-list
payload (REST under the emails key, the tool envelope under the data key);
when the backend honours the maxResults bound and maxResults is at least 1,
the list length is at most maxResults.  The top-level envelope shapes differ
and maxResults 0 is coerced to 10 on both paths. -/
theorem list_emails_surfaces_converge (b : Backend) (query : Option String)
    (maxResults : Nat)
    (hbound : ∀ q m ids, b.listIds q m = .ok ids → ids.length ≤ m)
    (hpos : 1 ≤ maxResults) :
    (restListEmails b query maxResults).1 = (toolListEmails b query maxResults).1
    ∧ jsonField (restListEmails b query maxResults).2 "emails" =
        jsonField (toolListEmails b query maxResults).2 "data"
    ∧ (∀ emails, listEmails b query (jsOrDefault maxResults 10) = .ok emails →
        emails.length ≤ maxResults) := by
  have hdef : jsOrDefault maxResults 10 = maxResults := by
    unfold jsOrDefault
    have : ¬ (maxResults == 0) = true := by
      simp only [beq_iff_eq]
      omega
    simp [this]
  refine ⟨?_, ?_, ?_⟩
  · unfold restListEmails toolListEmails
    cases listEmails b query (jsOrDefault maxResults 10) <;> rfl
  · unfold restListEmails toolListEmails
    cases listEmails b query (jsOrDefault maxResults 10) <;> simp [jsonField]
  · intro emails hok
    rw [hdef] at hok
    unfold listEmails at hok
    cases hl : b.listIds query maxResults with
    | error e => rw [hl] at hok; cases hok
    | ok ids =>
      rw [hl] at hok
      have hlen : ids.length ≤ maxResults := hbound query maxResults ids hl
      have : emails = ids.filterMap
          (fun i => if i == "" then none else getEmail b.fetchMsg i) := by
        cases hok; rfl
      subst this
      exact le_trans (List.length_filterMap_le _ _) hlen

/-- Witness for the amended C2 at the concrete one-message backend and
maxResults 5. -/
theorem list_emails_surfaces_converge_witness :
    (restListEmails c2Backend none 5).1 = (toolListEmails c2Backend none 5).1
    ∧ jsonField (restListEmails c2Backend none 5).2 "emails" =
        jsonField (toolListEmails c2Backend none 5).2 "data"
    ∧ (∀ emails, listEmails c2Backend none (jsOrDefault 5 10) = .ok emails →
        emails.length ≤ 5) :=
  list_emails_surfaces_converge c2Backend none 5
    (fun q m ids h => by
      have : ids = ["m1"].take m := by
        have := h
        unfold c2Backend at this
        simp at this
        exact this.symm
      subst this
      simp [List.length_take])
    (by decide)

/-- JS originalTo.split(',') followed by trim of each piece, as
replyToEmail applies to the To and Cc header values. -/
def splitRecipients (s : String) : List String :=
  (s.splitOn ",").map String.trim

/-- One insertion into a JS Set of strings: sets preserve first insertion
order and ignore an element already present. -/
def addUnique (acc : List String) (x : String) : List String :=
  if x ∈ acc then acc else acc ++ [x]

/-- The recipient computation of GmailService.replyToEmail: with replyAll,
a Set seeded with the original From value, then every trimmed entry of the
original To header (when that header is truthy) and of the original Cc header
(when truthy); without replyAll, just the original sender. -/
def replyRecipients (replyAll : Bool) (originalFrom originalTo originalCc : String) :
    List String :=
  if replyAll then
    let s1 := addUnique [] originalFrom
    let s2 := if originalTo == "" then s1 else (splitRecipients originalTo).foldl addUnique s1
    if originalCc == "" then s2 else (splitRecipients originalCc).foldl addUnique s2
  else [originalFrom]

/-- Membership in a Set after one insertion. -/
theorem mem_addUnique (acc : List String) (x y : String) :
    y ∈ addUnique acc x ↔ y ∈ acc ∨ y = x := by
  unfold addUnique
  by_cases h : x ∈ acc
  · simp only [if_pos h]
    constructor
    · exact Or.inl
    · rintro (hy | rfl)
      · exact hy
      · exact h
  · simp [if_neg h]

/-- One insertion preserves distinctness. -/
theorem nodup_addUnique (acc : List String) (x : String) (h : acc.Nodup) :
    (addUnique acc x).Nodup := by
  unfold addUnique
  by_cases hx : x ∈ acc
  · simpa [if_pos hx]
  · simp [if_neg hx, List.nodup_append, h, hx]

/-- Membership after folding a list of insertions into a Set. -/
theorem mem_foldl_addUnique (l : List String) :
    ∀ (acc : List String) (y : String),
      y ∈ l.foldl addUnique acc ↔ y ∈ acc ∨ y ∈ l := by
  induction l with
  | nil => simp
  | cons x xs ih =>
    intro acc y
    simp only [List.foldl_cons, ih (addUnique acc x) y, mem_addUnique]
    simp [List.mem_cons]
    tauto

/-- Folding insertions into a Set preserves distinctness. -/
theorem nodup_foldl_addUnique (l : List String) :
    ∀ (acc : List String), acc.Nodup → (l.foldl addUnique acc).Nodup := by
  induction l with
  | nil => intro acc h; simpa
  | cons x xs ih =>
    intro acc h
    exact ih (addUnique acc x) (nodup_addUnique acc x h)

/-- The reply-all recipient Set, rewritten as one fold of insertions over
the seeded sender followed by the guarded To and Cc contributions. -/
theorem replyRecipients_true_eq (f t c : String) :
    replyRecipients true f t c =
      ((if t = "" then [] else splitRecipients t)
        ++ (if c = "" then [] else splitRecipients c)).foldl addUnique [f] := by
  unfold replyRecipients
  rw [if_pos rfl]
  have hseed : addUnique [] f = [f] := by simp [addUnique]
  by_cases ht : t = "" <;> by_cases hc : c = "" <;>
    simp [ht, hc, hseed, List.foldl_append]

/-- C5: a plain reply addresses exactly the original sender; a reply-all
addresses a duplicate-free list consisting of the original sender together
with every (trimmed) address of the original To and Cc headers, none
excluded. -/
theorem reply_recipients_spec (originalFrom originalTo originalCc : String) :
    replyRecipients false originalFrom originalTo originalCc = [originalFrom]
    ∧ (replyRecipients true originalFrom originalTo originalCc).Nodup
    ∧ (∀ x, x ∈ replyRecipients true originalFrom originalTo originalCc ↔
        (x = originalFrom
         ∨ (originalTo ≠ "" ∧ x ∈ splitRecipients originalTo)
         ∨ (originalCc ≠ "" ∧ x ∈ splitRecipients originalCc))) := by
  refine ⟨rfl, ?_, ?_⟩
  · rw [replyRecipients_true_eq]
    exact nodup_foldl_addUnique _ _ (by simp)
  · intro x
    rw [replyRecipients_true_eq, mem_foldl_addUnique]
    by_cases ht : originalTo = "" <;> by_cases hc : originalCc = "" <;>
      simp [ht, hc] <;> tauto

/-- The per-query contribution inside findMarketingEmails: listEmails with
the per-query cap, where the per-query try/catch turns a thrown listing
error into an empty contribution. -/
def emailsOfQuery (b : Backend) (q : String) (limit : Nat) : List EmailMessage :=
  match listEmails b (some q) limit with
  | .error _ => []
  | .ok es => es

/-- The inner loop of findMarketingEmails over one query's results: the
seenIds set and the allEmails accumulator, pushing each email whose id has
not been seen and recording its id. -/
def collectUnseen : List String → List EmailMessage → List EmailMessage →
    List String × List EmailMessage
  | seen, acc, [] => (seen, acc)
  | seen, acc, e :: rest =>
    if e.id ∈ seen then collectUnseen seen acc rest
    else collectUnseen (e.id :: seen) (acc ++ [e]) rest

/-- One iteration of findMarketingEmails' outer loop over the three
heuristic queries, threading the seen-id set and the accumulator. -/
def marketingStep (b : Backend) (limit : Nat)
    (st : List String × List EmailMessage) (q : String) :
    List String × List EmailMessage :=
  collectUnseen st.1 st.2 (emailsOfQuery b q limit)

/-- The three fixed heuristic queries of GmailService.findMarketingEmails. -/
def marketingQueries : List String :=
  ["category:promotions",
   "subject:(unsubscribe OR newsletter OR promotional)",
   "from:(noreply OR newsletter OR marketing OR promo)"]

/-- GmailService.findMarketingEmails: run the three queries in order with a
per-query cap of ceil(maxResults / 2), de-duplicate by message id with the
seen set, and truncate the accumulated list to maxResults. -/
def findMarketingEmails (b : Backend) (maxResults : Nat) : List EmailMessage :=
  ((marketingQueries.foldl (marketingStep b ((maxResults + 1) / 2)) ([], [])).2).take
    maxResults

/-- The collector keeps ids distinct and recorded in the seen set. -/
theorem collectUnseen_nodup (l : List EmailMessage) :
    ∀ (seen : List String) (acc : List EmailMessage),
      (∀ e ∈ acc, e.id ∈ seen) → (acc.map EmailMessage.id).Nodup →
      ((collectUnseen seen acc l).2.map EmailMessage.id).Nodup
      ∧ (∀ e ∈ (collectUnseen seen acc l).2, e.id ∈ (collectUnseen seen acc l).1) := by
  induction l with
  | nil => intro seen acc h1 h2; exact ⟨h2, h1⟩
  | cons e rest ih =>
    intro seen acc h1 h2
    unfold collectUnseen
    by_cases hseen : e.id ∈ seen
    · simp only [if_pos hseen]
      exact ih seen acc h1 h2
    · simp only [if_neg hseen]
      refine ih (e.id :: seen) (acc ++ [e]) ?_ ?_
      · intro x hx
        rcases List.mem_append.mp hx with hx | hx
        · exact List.mem_cons_of_mem _ (h1 x hx)
        · simp only [List.mem_singleton] at hx
          subst hx
          exact List.mem_cons_self _ _
      · have hnotin : e.id ∉ acc.map EmailMessage.id := by
          intro hmem
          rcases List.mem_map.mp hmem with ⟨y, hy, hyid⟩
          exact hseen (hyid ▸ h1 y hy)
        simp [List.nodup_append, h2, hnotin]

/-- The collector only appends, in input order, to the accumulator. -/
theorem collectUnseen_sublist (l : List EmailMessage) :
    ∀ (seen : List String) (acc X : List EmailMessage),
      acc.Sublist X → (collectUnseen seen acc l).2.Sublist (X ++ l) := by
  induction l with
  | nil =>
    intro seen acc X h
    simpa [collectUnseen]
  | cons e rest ih =>
    intro seen acc X h
    unfold collectUnseen
    by_cases hseen : e.id ∈ seen
    · simp only [if_pos hseen]
      refine (ih seen acc X h).trans ?_
      exact (List.sublist_cons_self e rest).append_left X
    · simp only [if_neg hseen]
      have hstep : (acc ++ [e]).Sublist (X ++ [e]) := h.append (List.Sublist.refl [e])
      have := ih (e.id :: seen) (acc ++ [e]) (X ++ [e]) hstep
      simpa [List.append_assoc] using this

/-- Folding the per-query collector over any query list keeps the
accumulated ids distinct and recorded in the seen set. -/
theorem foldl_marketingStep_nodup (b : Backend) (limit : Nat) (qs : List String) :
    ∀ st : List String × List EmailMessage,
      (∀ e ∈ st.2, e.id ∈ st.1) → (st.2.map EmailMessage.id).Nodup →
      (((qs.foldl (marketingStep b limit) st).2.map EmailMessage.id).Nodup
       ∧ ∀ e ∈ (qs.foldl (marketingStep b limit) st).2,
           e.id ∈ (qs.foldl (marketingStep b limit) st).1) := by
  induction qs with
  | nil => intro st h1 h2; exact ⟨h2, h1⟩
  | cons q qs ih =>
    intro st h1 h2
    simp only [List.foldl_cons]
    have hstep := collectUnseen_nodup (emailsOfQuery b q limit) st.1 st.2 h1 h2
    exact ih (marketingStep b limit st q) hstep.2 hstep.1

/-- Folding the per-query collector over any query list only appends, in
first-seen order, entries drawn from the concatenated query results. -/
theorem foldl_marketingStep_sublist (b : Backend) (limit : Nat) (qs : List String) :
    ∀ (st : List String × List EmailMessage) (X : List EmailMessage),
      st.2.Sublist X →
      ((qs.foldl (marketingStep b limit) st).2).Sublist
        (X ++ qs.flatMap (fun q => emailsOfQuery b q limit)) := by
  induction qs with
  | nil => intro st X h; simpa
  | cons q qs ih =>
    intro st X h
    simp only [List.foldl_cons, List.flatMap_cons]
    have hstep : ((marketingStep b limit st q).2).Sublist (X ++ emailsOfQuery b q limit) :=
      collectUnseen_sublist (emailsOfQuery b q limit) st.1 st.2 X h
    have := ih (marketingStep b limit st q) (X ++ emailsOfQuery b q limit) hstep
    simpa [List.append_assoc] using this

/-- C8: for every maxResults value, the marketing-email finder returns each
message id at most once, its result is a sublist (so in first-seen order) of
the concatenation of the three heuristic queries' results, and its length is
at most maxResults. -/
theorem find_marketing_emails_spec (b : Backend) (maxResults : Nat) :
    ((findMarketingEmails b maxResults).map EmailMessage.id).Nodup
    ∧ (findMarketingEmails b maxResults).length ≤ maxResults
    ∧ (findMarketingEmails b maxResults).Sublist
        (marketingQueries.flatMap
          (fun q => emailsOfQuery b q ((maxResults + 1) / 2))) := by
  have hfold := foldl_marketingStep_nodup b ((maxResults + 1) / 2) marketingQueries
    ([], []) (by intro e h; cases h) (by simp)
  have hsub := foldl_marketingStep_sublist b ((maxResults + 1) / 2) marketingQueries
    ([], []) [] (List.Sublist.refl [])
  refine ⟨?_, ?_, ?_⟩
  · unfold findMarketingEmails
    have htake : ((marketingQueries.foldl
        (marketingStep b ((maxResults + 1) / 2)) ([], [])).2.take maxResults).map
          EmailMessage.id =
        ((marketingQueries.foldl
          (marketingStep b ((maxResults + 1) / 2)) ([], [])).2.map
            EmailMessage.id).take maxResults := by
      simp [List.map_take]
    rw [htake]
    exact hfold.1.sublist (List.take_sublist _ _)
  · unfold findMarketingEmails
    exact List.length_take_le _ _
  · unfold findMarketingEmails
    refine (List.take_sublist _ _).trans ?_
    simpa using hsub

/-- Depth-first search of a possibly-nested part tree for the first part of
the given mime type that carries truthy body data; this is the recursive
body-resolution reading of the spec, stated to compare against the
top-level-only search the source performs. -/
def findPartDataRec (mt : String) : List MimePart → Option String
  | [] => none
  | MimePart.mk t d c :: rest =>
    if t == mt && strTruthy d then d
    else
      match c with
      | some cs =>
        match findPartDataRec mt cs with
        | some x => some x
        | none => findPartDataRec mt rest
      | none => findPartDataRec mt rest

/-- A nested part tree with no text/plain part anywhere whose only content
sits in a text/html part one level down. -/
def c3NestedParts : List MimePart :=
  [MimePart.mk "multipart/alternative" none
    (some [MimePart.mk "text/html" (some "<p>only html</p>") none])]

/-- A payload with no direct body data and only the nested tree above. -/
def c3Payload : MessagePayload :=
  { headers := [], bodyData := none, parts := some c3NestedParts }

/-- Counterexample to C3: this payload's nested tree has no text/plain part
and does have a text/html part carrying content, yet getEmail's body
resolution returns the empty string, not that HTML content: the source's
Array.find runs over the top-level parts only and never recurses. -/
theorem get_email_body_not_recursive :
    findPartDataRec "text/plain" c3NestedParts = none
    ∧ findPartDataRec "text/html" c3NestedParts = some "<p>only html</p>"
    ∧ getEmailBody c3Payload = ""
    ∧ getEmailBody c3Payload ≠ "<p>only html</p>" := by
  refine ⟨?_, ?_, by rfl, by decide⟩ <;>
    simp [findPartDataRec, c3NestedParts, strTruthy]

/-- C3 amended: getEmail's body resolution prefers the direct top-level
payload; otherwise it searches only the top-level parts array, taking the
first text/plain part's data when truthy and falling back to the first
top-level text/html part's data; nested parts are never searched. -/
theorem get_email_body_toplevel_resolution (p : MessagePayload) :
    (strTruthy p.bodyData = true → getEmailBody p = jsStr p.bodyData)
    ∧ (∀ ps tp, strTruthy p.bodyData = false → p.parts = some ps →
        ps.find? isPlainPart = some tp → strTruthy tp.data = true →
        getEmailBody p = jsStr tp.data)
    ∧ (∀ ps hp, strTruthy p.bodyData = false → p.parts = some ps →
        (∀ tp, ps.find? isPlainPart = some tp → strTruthy tp.data = false) →
        ps.find? isHtmlPart = some hp → strTruthy hp.data = true →
        getEmailBody p = jsStr hp.data) := by
  refine ⟨?_, ?_, ?_⟩
  · intro h
    simp [getEmailBody, h]
  · intro ps tp hb hps hfind htp
    simp [getEmailBody, hb, hps, hfind, htp]
  · intro ps hp hb hps hplain hfind hhp
    cases hpt : ps.find? isPlainPart with
    | none => simp [getEmailBody, hb, hps, hpt, hfind, hhp, strTruthy_none]
    | some tp =>
      have hdead := hplain tp hpt
      simp [getEmailBody, hb, hps, hpt, hdead, hfind, hhp]

/-- Original-body extraction of GmailService.forwardEmail: the direct
payload when truthy, else the first top-level text/plain part's truthy data;
there is no text/html branch here. -/
def forwardOriginalBody (payload : MessagePayload) : String :=
  if strTruthy payload.bodyData then jsStr payload.bodyData
  else
    match payload.parts with
    | none => ""
    | some ps =>
      match ps.find? isPlainPart with
      | some tp => if strTruthy tp.data then jsStr tp.data else ""
      | none => ""

/-- The forwardedContent block of forwardEmail: the caller's body (or the
empty string), a blank, the forwarded-message banner, the original From,
Date, Subject and To lines, a blank, and the extracted original body as the
final line (the source joins these with a newline). -/
def forwardedContentLines (paramsBody : Option String)
    (originalFrom originalDate originalSubject originalTo originalBody : String) :
    List String :=
  [jsStr paramsBody, "",
   "---------- Forwarded message ---------",
   "From: " ++ originalFrom,
   "Date: " ++ originalDate,
   "Subject: " ++ originalSubject,
   "To: " ++ originalTo,
   "", originalBody]

/-- C10: forward's quoted original body comes only from the direct payload
or the first top-level text/plain part; when neither carries truthy data the
extracted body - and so the final line of the forwarded-content block - is
empty even when a text/html part carries content, unlike getEmail's body
resolution which falls back to a top-level html part. -/
theorem forward_body_no_html_fallback (p : MessagePayload) :
    (strTruthy p.bodyData = true → forwardOriginalBody p = jsStr p.bodyData)
    ∧ (∀ ps tp, strTruthy p.bodyData = false → p.parts = some ps →
        ps.find? isPlainPart = some tp → strTruthy tp.data = true →
        forwardOriginalBody p = jsStr tp.data)
    ∧ (∀ ps, strTruthy p.bodyData = false → p.parts = some ps →
        (∀ tp, ps.find? isPlainPart = some tp → strTruthy tp.data = false) →
        (forwardOriginalBody p = ""
         ∧ ∀ hp, ps.find? isHtmlPart = some hp → strTruthy hp.data = true →
             getEmailBody p = jsStr hp.data))
    ∧ (∀ pb f d s t ob,
        (forwardedContentLines pb f d s t ob).getLast? = some ob) := by
  refine ⟨?_, ?_, ?_, ?_⟩
  · intro h
    simp [forwardOriginalBody, h]
  · intro ps tp hb hps hfind htp
    simp [forwardOriginalBody, hb, hps, hfind, htp]
  · intro ps hb hps hplain
    constructor
    · cases hpt : ps.find? isPlainPart with
      | none => simp [forwardOriginalBody, hb, hps, hpt]
      | some tp =>
        have hdead := hplain tp hpt
        simp [forwardOriginalBody, hb, hps, hpt, hdead]
    · intro hp hfind hhp
      cases hpt : ps.find? isPlainPart with
      | none => simp [getEmailBody, hb, hps, hpt, hfind, hhp, strTruthy_none]
      | some tp =>
        have hdead := hplain tp hpt
        simp [getEmailBody, hb, hps, hpt, hdead, hfind, hhp]
  · intro pb f d s t ob
    simp [forwardedContentLines]

/-- The standard base64 alphabet as a code point: capitals, lowercase,
digits, plus and slash for the sextet values 0..63. -/
def b64Char (n : Nat) : Nat :=
  if n < 26 then 65 + n
  else if n < 52 then 97 + (n - 26)
  else if n < 62 then 48 + (n - 52)
  else if n = 62 then 43
  else 47

/-- The sextet value of a base64 alphabet code point. -/
def b64Val (c : Nat) : Nat :=
  if 65 ≤ c ∧ c ≤ 90 then c - 65
  else if 97 ≤ c ∧ c ≤ 122 then c - 97 + 26
  else if 48 ≤ c ∧ c ≤ 57 then c - 48 + 52
  else if c = 43 then 62
  else 63

/-- The alphabet is inverted by the value table on every sextet. -/
theorem b64Val_b64Char : ∀ n, n < 64 → b64Val (b64Char n) = n := by decide

/-- No alphabet code point is the padding character. -/
theorem b64Char_ne_pad (n : Nat) : b64Char n ≠ 61 := by
  unfold b64Char
  split
  · omega
  · split
    · omega
    · split
      · omega
      · split <;> omega

/-- Base64 encoding of a byte list, three bytes to four code points, with
padding code points (61) closing a final group of one or two bytes - the
encoding Buffer.toString with the base64 option applies. -/
def b64encode : List Nat → List Nat
  | [] => []
  | [a] => [b64Char (a / 4), b64Char (a % 4 * 16), 61, 61]
  | [a, b] => [b64Char (a / 4), b64Char (a % 4 * 16 + b / 16), b64Char (b % 16 * 4), 61]
  | a :: b :: c :: rest =>
    b64Char (a / 4) :: b64Char (a % 4 * 16 + b / 16) ::
      b64Char (b % 16 * 4 + c / 64) :: b64Char (c % 64) :: b64encode rest

/-- Base64 decoding of a code point list in four-character groups, with
padding allowed only in a final group; none on a malformed length. -/
def b64decode : List Nat → Option (List Nat)
  | [] => some []
  | c1 :: c2 :: c3 :: c4 :: rest =>
    if c3 = 61 ∧ c4 = 61 ∧ rest = [] then
      some [b64Val c1 * 4 + b64Val c2 / 16]
    else if c4 = 61 ∧ rest = [] then
      some [b64Val c1 * 4 + b64Val c2 / 16, b64Val c2 % 16 * 16 + b64Val c3 / 4]
    else
      match b64decode rest with
      | none => none
      | some tail =>
        some ((b64Val c1 * 4 + b64Val c2 / 16) ::
          (b64Val c2 % 16 * 16 + b64Val c3 / 4) ::
          ((b64Val c3 % 4 * 64 + b64Val c4) :: tail))
  | _ => none

/-- Dividing a sixteen-multiple plus a remainder below sixteen recovers the
multiplier. -/
theorem div16_mul16_add (x y : Nat) (hy : y < 16) : (x * 16 + y) / 16 = x := by
  rw [Nat.mul_comm x 16, Nat.mul_add_div (by norm_num)]
  simp [Nat.div_eq_of_lt hy]

/-- Reducing a sixteen-multiple plus a remainder below sixteen modulo
sixteen recovers the remainder. -/
theorem mod16_mul16_add (x y : Nat) (hy : y < 16) : (x * 16 + y) % 16 = y := by
  rw [Nat.mul_comm x 16, Nat.mul_add_mod]
  exact Nat.mod_eq_of_lt hy

/-- Dividing a four-multiple plus a remainder below four recovers the
multiplier. -/
theorem div4_mul4_add (x y : Nat) (hy : y < 4) : (x * 4 + y) / 4 = x := by
  rw [Nat.mul_comm x 4, Nat.mul_add_div (by norm_num)]
  simp [Nat.div_eq_of_lt hy]

/-- Reducing a four-multiple plus a remainder below four modulo four
recovers the remainder. -/
theorem mod4_mul4_add (x y : Nat) (hy : y < 4) : (x * 4 + y) % 4 = y := by
  rw [Nat.mul_comm x 4, Nat.mul_add_mod]
  exact Nat.mod_eq_of_lt hy

/-- A sixteen-multiple divided by sixteen. -/
theorem mul16_div16 (x : Nat) : x * 16 / 16 = x := by
  have := div16_mul16_add x 0 (by norm_num)
  simpa using this

/-- A four-multiple divided by four. -/
theorem mul4_div4 (x : Nat) : x * 4 / 4 = x := by
  have := div4_mul4_add x 0 (by norm_num)
  simpa using this

/-- Decoding inverts encoding on every byte list. -/
theorem b64decode_b64encode :
    ∀ (l : List Nat), (∀ x ∈ l, x < 256) → b64decode (b64encode l) = some l
  | [], _ => rfl
  | [a], h => by
    have ha : a < 256 := h a (by simp)
    have h1 := b64Val_b64Char (a / 4) (by omega)
    have h2 := b64Val_b64Char (a % 4 * 16) (by omega)
    simp [b64encode, b64decode, h1, h2, mul16_div16]
    omega
  | [a, b], h => by
    have ha : a < 256 := h a (by simp)
    have hb : b < 256 := h b (by simp)
    have h1 := b64Val_b64Char (a / 4) (by omega)
    have h2 := b64Val_b64Char (a % 4 * 16 + b / 16) (by omega)
    have h3 := b64Val_b64Char (b % 16 * 4) (by omega)
    have e1 := div16_mul16_add (a % 4) (b / 16) (by omega)
    have e2 := mod16_mul16_add (a % 4) (b / 16) (by omega)
    simp [b64encode, b64decode, b64Char_ne_pad, h1, h2, h3, e1, e2, mul4_div4]
    omega
  | a :: b :: c :: rest, h => by
    have ha : a < 256 := h a (by simp)
    have hb : b < 256 := h b (by simp)
    have hc : c < 256 := h c (by simp)
    have ih := b64decode_b64encode rest (fun x hx => h x (by simp [hx]))
    have h1 := b64Val_b64Char (a / 4) (by omega)
    have h2 := b64Val_b64Char (a % 4 * 16 + b / 16) (by omega)
    have h3 := b64Val_b64Char (b % 16 * 4 + c / 64) (by omega)
    have h4 := b64Val_b64Char (c % 64) (by omega)
    have e1 := div16_mul16_add (a % 4) (b / 16) (by omega)
    have e2 := mod16_mul16_add (a % 4) (b / 16) (by omega)
    have e3 := div4_mul4_add (b % 16) (c / 64) (by omega)
    have e4 := mod4_mul4_add (b % 16) (c / 64) (by omega)
    simp [b64encode, b64decode, b64Char_ne_pad, h1, h2, h3, h4, ih, e1, e2, e3, e4]
    omega

/-- The octets of the opening token of a MIME encoded-word with charset
UTF-8 and base64 content (the characters of the string of an equals sign,
a question mark, UTF-8, another question mark, B and a question mark). -/
def encWordOpen : List Nat := [61, 63, 85, 84, 70, 45, 56, 63, 66, 63]

/-- The octets of the closing token of an encoded-word (question mark,
equals sign). -/
def encWordClose : List Nat := [63, 61]

/-- GmailService.encodeHeader at the octet level: the header text is
carried as its UTF-8 byte sequence (the bytes Buffer.from sees); a value
with some byte above 127 (exactly when the source regex finds a character
outside the ASCII range) is wrapped as an encoded-word around its base64
encoding, an ASCII-only value passes through unchanged. -/
def encodeHeaderBytes (l : List Nat) : List Nat :=
  if l.any (fun b => 127 < b) then
    encWordOpen ++ b64encode l ++ encWordClose
  else l

/-- Decoding of an encoded-word by the convention the spec names: strip the
opening and closing tokens and base64-decode what stands between them. -/
def decodeEncodedWord (l : List Nat) : Option (List Nat) :=
  if encWordOpen.isPrefixOf l ∧ encWordClose.isSuffixOf l
      ∧ encWordOpen.length + encWordClose.length ≤ l.length then
    b64decode ((l.drop encWordOpen.length).take
      (l.length - encWordOpen.length - encWordClose.length))
  else none

/-- C6: on an ASCII-only header value the encoding is the identity; on a
value with any non-ASCII byte the produced encoded-word decodes back to the
original value. -/
theorem encode_header_id_and_roundtrip (l : List Nat)
    (hbytes : ∀ b ∈ l, b < 256) :
    ((∀ b ∈ l, b ≤ 127) → encodeHeaderBytes l = l)
    ∧ ((∃ b ∈ l, 127 < b) → decodeEncodedWord (encodeHeaderBytes l) = some l) := by
  constructor
  · intro hascii
    have hany : l.any (fun b => 127 < b) = false := by
      simp only [List.any_eq_false, decide_eq_true_eq]
      intro x hx
      exact Nat.not_lt.mpr (hascii x hx)
    simp [encodeHeaderBytes, hany]
  · intro hsome
    have hany : l.any (fun b => 127 < b) = true := by
      rcases hsome with ⟨x, hx, hgt⟩
      exact List.any_eq_true.mpr ⟨x, hx, by simpa using hgt⟩
    have henc : encodeHeaderBytes l = encWordOpen ++ (b64encode l ++ encWordClose) := by
      simp [encodeHeaderBytes, hany, List.append_assoc]
    rw [henc]
    unfold decodeEncodedWord
    have hpre : encWordOpen.isPrefixOf (encWordOpen ++ (b64encode l ++ encWordClose)) = true := by
      rw [List.isPrefixOf_iff_prefix]
      exact List.prefix_append _ _
    have hsuf : encWordClose.isSuffixOf (encWordOpen ++ (b64encode l ++ encWordClose)) = true := by
      rw [List.isSuffixOf_iff_suffix]
      rw [← List.append_assoc]
      exact List.suffix_append _ _
    have hlen : encWordOpen.length + encWordClose.length ≤
        (encWordOpen ++ (b64encode l ++ encWordClose)).length := by
      simp [List.length_append]
    rw [if_pos ⟨hpre, hsuf, hlen⟩]
    rw [List.drop_left]
    have hcount : (encWordOpen ++ (b64encode l ++ encWordClose)).length -
        encWordOpen.length - encWordClose.length = (b64encode l).length := by
      simp [List.length_append]
    rw [hcount, List.take_left]
    exact b64decode_b64encode l hbytes

/-- Witness for C6: the ASCII bytes of the two-letter value Hi pass through
unchanged, and the UTF-8 bytes of an H followed by an e-acute round-trip
through the encoded-word. -/
theorem encode_header_id_and_roundtrip_witness :
    encodeHeaderBytes [72, 105] = [72, 105]
    ∧ decodeEncodedWord (encodeHeaderBytes [72, 195, 169]) = some [72, 195, 169] :=
  ⟨(encode_header_id_and_roundtrip [72, 105] (by decide)).1 (by decide),
   (encode_header_id_and_roundtrip [72, 195, 169] (by decide)).2
     ⟨195, by decide, by decide⟩⟩

/-- A string whose characters carry the given code points (all ASCII in the
uses below). -/
def asciiString (l : List Nat) : String :=
  String.mk (l.map Char.ofNat)

/-- GmailService.encodeHeader at the string level: the source regex finds a
character outside the ASCII range exactly when some UTF-8 octet of the text
exceeds 127; such a value becomes the encoded-word built by
encodeHeaderBytes over its UTF-8 octets, an ASCII-only value passes through
unchanged. -/
def encodeHeaderStr (text : String) : String :=
  let bytes := text.toUTF8.toList.map UInt8.toNat
  if bytes.any (fun b => 127 < b) then asciiString (encodeHeaderBytes bytes)
  else text

/-- The inputs of GmailService.sendEmail.  The source field named to is a
reserved word in Lean and is embedded as toAddrs. -/
structure SendEmailParams where
  toAddrs : List String
  subject : String
  body : String
  cc : Option (List String)
  bcc : Option (List String)
  htmlBody : Option String

/-- The header lines sendEmail pushes before the body: To, Cc and Bcc when
their lists are truthy (joined with a comma and a blank), the encoded
Subject, and the MIME-Version line. -/
def sendHeaderLines (p : SendEmailParams) : List String :=
  ["To: " ++ String.intercalate ", " p.toAddrs]
  ++ (if listTruthy p.cc then ["Cc: " ++ String.intercalate ", " (jsList p.cc)] else [])
  ++ (if listTruthy p.bcc then ["Bcc: " ++ String.intercalate ", " (jsList p.bcc)] else [])
  ++ ["Subject: " ++ encodeHeaderStr p.subject, "MIME-Version: 1.0"]

/-- The emailLines array GmailService.sendEmail builds (the source joins it
with CRLF into the raw message).  The boundary token, generated in the
source from Math.random with a fixed marker, is taken as a parameter. -/
def buildSendLines (p : SendEmailParams) (boundary : String) : List String :=
  if strTruthy p.htmlBody then
    sendHeaderLines p
    ++ ["Content-Type: multipart/alternative; boundary=\"" ++ boundary ++ "\"", "",
        "--" ++ boundary, "Content-Type: text/plain; charset=UTF-8", "", p.body, "",
        "--" ++ boundary, "Content-Type: text/html; charset=UTF-8", "",
        jsStr p.htmlBody, "",
        "--" ++ boundary ++ "--"]
  else
    sendHeaderLines p ++ ["Content-Type: text/plain; charset=UTF-8", "", p.body]

/-- The raw RFC 2822-style message before transport encoding: the lines
joined with CRLF. -/
def sendRawMessage (p : SendEmailParams) (boundary : String) : String :=
  String.intercalate "\r\n" (buildSendLines p boundary)

/-- One part of a multipart body as the spec describes it: the boundary
delimiter line, the part's own Content-Type header, a blank separator, the
content, and a closing blank line. -/
def specMimePartBlock (boundary contentType content : String) : List String :=
  ["--" ++ boundary, "Content-Type: " ++ contentType, "", content, ""]

/-- A whole multipart body as the spec describes it: the listed parts in
order, each wrapped by the same boundary delimiter, then the closing
delimiter. -/
def specMultipartAlternative (boundary : String)
    (contents : List (String × String)) : List String :=
  (contents.flatMap (fun pc => specMimePartBlock boundary pc.1 pc.2))
  ++ ["--" ++ boundary ++ "--"]

/-- C7: with a truthy HTML body the composed message declares
multipart/alternative with the boundary token inside the Content-Type
header and its body consists of exactly two parts, the plain part first and
the HTML part second, both wrapped by that same boundary token; with no
HTML body the message is single-part with the plain content type and
exactly the given body as content. -/
theorem send_email_mime_structure (p : SendEmailParams) (boundary : String) :
    (strTruthy p.htmlBody = true →
      buildSendLines p boundary =
        sendHeaderLines p
        ++ ["Content-Type: multipart/alternative; boundary=\"" ++ boundary ++ "\"", ""]
        ++ specMultipartAlternative boundary
            [("text/plain; charset=UTF-8", p.body),
             ("text/html; charset=UTF-8", jsStr p.htmlBody)])
    ∧ (p.htmlBody = none →
      buildSendLines p boundary =
        sendHeaderLines p ++ ["Content-Type: text/plain; charset=UTF-8", "", p.body]) := by
  constructor
  · intro h
    simp [buildSendLines, h, specMultipartAlternative, specMimePartBlock]
  · intro h
    simp [buildSendLines, h, strTruthy_none]

end GmailMcp
